import Mathlib

/-!
Verification development for the seat-map highlighting tool (`src/app.py`).

The program's core pipeline is embedded shallowly:

* Python strings are modelled as `List Char`.
* `parse_seat_text` (app.py lines 15-66) is embedded including its two
  regular expressions, which are compiled into an explicit backtracking
  matcher (`plusAlts`, `starAlts`, `litAlts`, ...) that enumerates the
  alternatives of each greedy quantifier in exactly Python's backtracking
  order (longest consumption first, depth first, anchored at the start of
  the string, no end anchor); the first element of the enumeration is the
  match `re.match` returns.
* `normalize_class` (lines 69-71), the coordinate-map construction
  (lines 134-157), the reconcile loop (lines 160-179) and the top-level
  run control flow (lines 107-124) are embedded as pure functions, with
  the worksheet-cell mutation modelled by explicit fill-state passing.

Modelling notes on the Python standard library:
* `pyIsSpace` is the set of Unicode whitespace characters recognised both
  by `str.strip()` / `str.isspace()` and by `\s` in a `str` regex.
* `pyIsDigit` models `\d` (Unicode category Nd) restricted to the ASCII
  and fullwidth digit blocks; other Nd blocks never occur in the tool's
  inputs and no theorem below depends on the extent of the digit set.
* `pyStrToInt` models `int(...)` on strings as optional sign plus decimal
  digits after stripping whitespace (underscore separators are not
  modelled; they cannot be produced by the regex groups involved).
-/

/-- Unicode whitespace as recognised by Python's `str.strip`, `str.isspace`
and the regex class `\s` on `str` patterns. -/
def pyIsSpace (c : Char) : Bool :=
  decide (c.val = 0x20 ∨ (0x09 ≤ c.val ∧ c.val ≤ 0x0D) ∨ (0x1C ≤ c.val ∧ c.val ≤ 0x1F) ∨
    c.val = 0x85 ∨ c.val = 0xA0 ∨ c.val = 0x1680 ∨ (0x2000 ≤ c.val ∧ c.val ≤ 0x200A) ∨
    c.val = 0x2028 ∨ c.val = 0x2029 ∨ c.val = 0x202F ∨ c.val = 0x205F ∨ c.val = 0x3000)

/-- Complement of `pyIsSpace`: the regex class `\S`. -/
def nonSpace (c : Char) : Bool := !pyIsSpace c

/-- Decimal digits for the regex class `\d` and `str.isdigit`: ASCII `0-9`
and the fullwidth block `０-９` (see the modelling note in the header). -/
def pyIsDigit (c : Char) : Bool :=
  decide ((0x30 ≤ c.val ∧ c.val ≤ 0x39) ∨ (0xFF10 ≤ c.val ∧ c.val ≤ 0xFF19))

/-- Numeric value of a digit accepted by `pyIsDigit`. -/
def digitVal (c : Char) : Nat :=
  if c.val ≤ 0x39 then c.toNat - 0x30 else c.toNat - 0xFF10

/-- Value of a digit string, as computed by Python's `int`. -/
def digitsVal (l : List Char) : Nat := l.foldl (fun a c => a * 10 + digitVal c) 0

/-- Python `str.isdigit`: nonempty and all digits. -/
def pyIsDigitStr (l : List Char) : Bool := !l.isEmpty && l.all pyIsDigit

/-- Python `str.strip()`: drop leading and trailing whitespace. -/
def pyStrip (l : List Char) : List Char :=
  ((l.dropWhile pyIsSpace).reverse.dropWhile pyIsSpace).reverse

/-- Model of `re.sub(r'\s+', ' ', s)`: every maximal nonempty run of
whitespace characters is replaced by a single ordinary space. -/
def collapseWs : List Char → List Char
  | [] => []
  | [c] => if pyIsSpace c then [' '] else [c]
  | c :: d :: rest =>
    if pyIsSpace c then
      if pyIsSpace d then collapseWs (d :: rest)
      else ' ' :: collapseWs (d :: rest)
    else c :: collapseWs (d :: rest)

/-- The function `normalize_class` of app.py lines 69-71:
`re.sub(r'\s+', ' ', str(s).strip())` (the `str(...)` conversion is applied
by the callers, see `pyStrOf`). -/
def normalize_class (l : List Char) : List Char := collapseWs (pyStrip l)

/-- Worker for `splitRuns`: when `inSep` is true the scanner is inside a
separator run (the piece before it has already been emitted), otherwise
`acc` holds the current piece reversed. -/
def splitRunsAux (p : Char → Bool) : Bool → List Char → List Char → List (List Char)
  | true, _, [] => [[]]
  | false, acc, [] => [acc.reverse]
  | true, _, c :: rest =>
    if p c then splitRunsAux p true [] rest else splitRunsAux p false [c] rest
  | false, acc, c :: rest =>
    if p c then acc.reverse :: splitRunsAux p true [] rest
    else splitRunsAux p false (c :: acc) rest

/-- Model of `re.split(r'[...]+', s)`: split `s` at every maximal nonempty
run of characters satisfying `p`, keeping empty pieces at the borders,
exactly as Python's `re.split` does. -/
def splitRuns (p : Char → Bool) (l : List Char) : List (List Char) :=
  splitRunsAux p false [] l

/-- The separator class `[、,．.\s・]` used on app.py line 59 to split the
seat-list region. -/
def isSepChar (c : Char) : Bool :=
  pyIsSpace c || c == '、' || c == ',' || c == '．' || c == '.' || c == '・'

/-- The character class `[\d\s、,．.・]` of the seat-list region in both
regex patterns (app.py lines 42 and 48). -/
def isSeatChar (c : Char) : Bool := pyIsDigit c || isSepChar c

/-! The backtracking regex matcher. An alternatives list pairs each
possible consumed prefix with the remaining input, ordered the way
Python's engine explores them. -/

/-- Alternatives of a matcher: consumed prefix and remaining input, in
backtracking preference order. -/
abbrev Alts := List (List Char × List Char)

/-- The three captured groups of the seat-entry patterns: class name,
row digits, seat-list region. -/
abbrev Res := List Char × List Char × List Char

/-- Greedy `p+` on a single-character class: consume 1 to `k` characters
of the maximal run, longest first. -/
def plusAlts (p : Char → Bool) : List Char → Alts
  | [] => []
  | c :: rest =>
    if p c then ((plusAlts p rest).map fun pr => (c :: pr.1, pr.2)) ++ [([c], rest)]
    else []

/-- Greedy `p*`: like `p+` but with the empty consumption as the final
fallback alternative. -/
def starAlts (p : Char → Bool) (s : List Char) : Alts := plusAlts p s ++ [([], s)]

/-- A literal token: at most one alternative. -/
def litAlts (w s : List Char) : Alts :=
  if w.isPrefixOf s then [(w, s.drop w.length)] else []

/-- The literal `Class` that opens both patterns. -/
def classLit : List Char := "Class".toList

/-- Tail of both patterns after the `列` glyph: `\s*` then the captured
seat-list region `([\d\s、,．.・]+)`; returns the group-3 alternatives. -/
def seatTailAlts (s : List Char) : List (List Char) :=
  (starAlts pyIsSpace s).flatMap fun w => (plusAlts isSeatChar w.2).map fun g3 => g3.1

/-- Tail of both patterns after the class name: `\s+(\d+)列\s*(seat+)`;
returns (group 2, group 3) alternatives. -/
def rowTailAlts (s : List Char) : List (List Char × List Char) :=
  (plusAlts pyIsSpace s).flatMap fun w =>
    (plusAlts pyIsDigit w.2).flatMap fun g2 =>
      (litAlts ['列'] g2.2).flatMap fun lt =>
        (seatTailAlts lt.2).map fun g3 => (g2.1, g3)

/-- Layer of the class-name region with nothing left to consume before the
row tail; the first component accumulates the class-name suffix. -/
def lv4 (r : List Char) : List Res := (rowTailAlts r).map fun g23 => ([], g23.1, g23.2)

/-- One greedy quantifier layer of the class-name region: consume `p+`,
then continue with `k`, prepending the consumed characters to the
class-name component of every result. -/
def layerPlus (p : Char → Bool) (k : List Char → List Res) (r : List Char) : List Res :=
  (plusAlts p r).flatMap fun pr => (k pr.2).map fun res => (pr.1 ++ res.1, res.2)

/-- Layer `\S+` for the second qualifier token, then the row tail. -/
def lvT2 : List Char → List Res := layerPlus nonSpace lv4

/-- Layer `\s+` before the second qualifier token. -/
def lvW2 : List Char → List Res := layerPlus pyIsSpace lvT2

/-- The optional group `(?:\s+\S+)?` of pattern 1: try it present
(greedily) first, then absent. -/
def lvOpt (r : List Char) : List Res := lvW2 r ++ lv4 r

/-- Layer `\S+` for the first qualifier token of pattern 2 (which demands
a second qualifier token afterwards). -/
def lvT1two : List Char → List Res := layerPlus nonSpace lvW2

/-- Layer `\S+` for the first qualifier token of pattern 1 (followed by
the optional second qualifier token). -/
def lvT1opt : List Char → List Res := layerPlus nonSpace lvOpt

/-- Layer `\s+` after `Class` in pattern 2. -/
def lvW1two : List Char → List Res := layerPlus pyIsSpace lvT1two

/-- Layer `\s+` after `Class` in pattern 1. -/
def lvW1opt : List Char → List Res := layerPlus pyIsSpace lvT1opt

/-- All matches of pattern 1, app.py line 42:
`(Class\s+\S+(?:\s+\S+)?)\s+(\d+)列\s*([\d\s、,．.・]+)`, in backtracking
order; each `Res` holds groups 1-3. -/
def pat1Alts (s : List Char) : List Res :=
  (litAlts classLit s).flatMap fun pr => (lvW1opt pr.2).map fun res => (pr.1 ++ res.1, res.2)

/-- All matches of pattern 2, app.py line 48:
`(Class\s+\S+\s+\S+)\s+(\d+)列\s*([\d\s、,．.・]+)`, in backtracking order. -/
def pat2Alts (s : List Char) : List Res :=
  (litAlts classLit s).flatMap fun pr => (lvW1two pr.2).map fun res => (pr.1 ++ res.1, res.2)

/-- The match `re.match(pattern1, block)` returns, with its three groups,
or `none` if pattern 1 does not match. -/
def p1Groups (s : List Char) : Option Res := (pat1Alts s).head?

/-- The match `re.match(pattern2, block)` returns (the three-token
fallback pattern of app.py lines 47-50). -/
def p2Groups (s : List Char) : Option Res := (pat2Alts s).head?

/-- Modelled from the spec's words (§4.1 step 3): the `two-token
class-name form` — the marker keyword `Class` plus exactly one qualifier
token, then the row/seat tail, i.e. `(Class\s+\S+)\s+(\d+)列\s*(seat+)`.
The source has no such standalone pattern; this definition exists only to
state claim C2's notion of `the two-token reading` for comparison. -/
def specTwoTokenFormGroups (s : List Char) : Option Res :=
  ((litAlts classLit s).flatMap fun pr => (lvW2 pr.2).map fun res => (pr.1 ++ res.1, res.2)).head?

/-! The parser `parse_seat_text` (app.py lines 15-66). -/

/-- A parsed seat request `(class_name, row_num, seat_num)`. -/
abbrev SeatReq := List Char × Nat × Nat

/-- The zero-width lookahead `(?=Class\s)` used to split the input into
blocks (app.py line 31). -/
def startsClassSp : List Char → Bool
  | 'C' :: 'l' :: 'a' :: 's' :: 's' :: c :: _ => pyIsSpace c
  | _ => false

/-- Worker for `splitBeforeClass`: `acc` is the current piece, reversed. -/
def splitBCAux : List Char → List Char → List (List Char)
  | acc, [] => [acc.reverse]
  | acc, c :: rest =>
    if startsClassSp (c :: rest) then acc.reverse :: splitBCAux [c] rest
    else splitBCAux (c :: acc) rest

/-- Model of `re.split(r'(?=Class\s)', text)`: cut the text before every
position where `Class` followed by whitespace begins (a match at position
0 yields a leading empty piece, as in Python 3.7+). -/
def splitBeforeClass (l : List Char) : List (List Char) := splitBCAux [] l

/-- Requests emitted for one matched block (app.py lines 54-63): strip
group 1 as the class name, convert group 2 to the row number, split the
seat-list region on separator runs and keep the purely-numeric tokens. -/
def emitReqs (g : Res) : List SeatReq :=
  let cname := pyStrip g.1
  let row := digitsVal g.2.1
  (splitRuns isSepChar (pyStrip g.2.2)).filterMap fun t =>
    let t' := pyStrip t
    if pyIsDigitStr t' then some (cname, row, digitsVal t') else none

/-- Processing of one block (app.py lines 33-63): try pattern 1, fall
back to pattern 2, discard the block if neither matches. -/
def processBlock (b : List Char) : List SeatReq :=
  match p1Groups b with
  | some g => emitReqs g
  | none =>
    match p2Groups b with
    | some g => emitReqs g
    | none => []

/-- Processing of one block with the fallback branch (app.py lines 46-50)
removed; used only to state claim C10. -/
def processBlockNoFallback (b : List Char) : List SeatReq :=
  match p1Groups b with
  | some g => emitReqs g
  | none => []

/-- The function `parse_seat_text` of app.py lines 15-66: replace
fullwidth spaces, split into blocks before each `Class`, parse each
nonempty stripped block, and deduplicate the collected requests
(`list(set(results))`; Python's set iteration order is unspecified, the
model fixes one order, and set-level claims are stated order-insensitively). -/
def parse_seat_text (text : List Char) : List SeatReq :=
  let t := text.map fun c => if c = '　' then ' ' else c
  ((((splitBeforeClass t).map pyStrip).filter (fun b => !b.isEmpty)).flatMap processBlock).dedup

/-- The parser with pattern 2 removed; used only to state claim C10. -/
def parse_seat_textNoFallback (text : List Char) : List SeatReq :=
  let t := text.map fun c => if c = '　' then ' ' else c
  ((((splitBeforeClass t).map pyStrip).filter (fun b => !b.isEmpty)).flatMap
    processBlockNoFallback).dedup

/-! Worksheets, the coordinate map, the reconcile loop and run control
flow. -/

/-- Content of a non-empty worksheet cell, a sum type over the dynamic
values the program actually inspects: integers and strings (a `None`
cell value is `Option.none` at the `Sheet` level). -/
inductive PyVal where
  | pInt (i : Int)
  | pStr (s : List Char)
deriving DecidableEq

/-- Decimal digit character. -/
def digitChar (n : Nat) : Char := Char.ofNat (0x30 + n % 10)

/-- Decimal representation of a natural number (worker). -/
def natReprAux : Nat → List Char → List Char
  | n, acc =>
    if h : n < 10 then digitChar n :: acc
    else natReprAux (n / 10) (digitChar (n % 10) :: acc)
termination_by n => n
decreasing_by exact Nat.div_lt_self (by omega) (by omega)

/-- Decimal representation of a natural number. -/
def natRepr (n : Nat) : List Char := natReprAux n []

/-- Python `str(...)` on a cell value. -/
def pyStrOf : PyVal → List Char
  | .pStr s => s
  | .pInt i => if i < 0 then '-' :: natRepr i.natAbs else natRepr i.natAbs

/-- Python `int(...)` on a string: strip whitespace, optional sign,
nonempty digits; `none` models the `ValueError` caught on app.py
lines 148-155. -/
def pyStrToInt (s : List Char) : Option Int :=
  match pyStrip s with
  | '-' :: ds => if pyIsDigitStr ds then some (-(digitsVal ds : Int)) else none
  | '+' :: ds => if pyIsDigitStr ds then some ((digitsVal ds : Int)) else none
  | ds => if pyIsDigitStr ds then some ((digitsVal ds : Int)) else none

/-- Python `int(...)` on a cell value. -/
def pyToInt : PyVal → Option Int
  | .pInt i => some i
  | .pStr s => pyStrToInt s

/-- A cell fill; `PatternFill("solid", fgColor="0000FF")` is the blue
highlight of app.py line 130, `defaultFill` stands for any pre-existing
fill of the uploaded sheet. -/
inductive FillVal where
  | patternFill (patternType : List Char) (fgColor : List Char)
  | defaultFill
deriving DecidableEq

/-- The highlight fill `BLUE_FILL` of app.py line 130. -/
def BLUE_FILL : FillVal := .patternFill ("solid".toList) "0000FF".toList

/-- A worksheet: used range bounds, cell values and cell fills. -/
structure Sheet where
  maxRow : Nat
  maxCol : Nat
  cellVal : Nat → Nat → Option PyVal
  cellFill : Nat → Nat → FillVal

/-- A workbook: named sheets in order. -/
structure Workbook where
  sheets : List (List Char × Sheet)

/-- The list `wb.sheetnames`. -/
def sheetnames (wb : Workbook) : List (List Char) := wb.sheets.map (·.1)

/-- Sheet access `wb[name]`. -/
def getSheet (wb : Workbook) (n : List Char) : Option Sheet :=
  (wb.sheets.find? fun e => e.1 = n).map (·.2)

/-- A grid coordinate `(r, c)`, 1-based. -/
abbrev Coord := Nat × Nat

/-- A normalized lookup key `(normalized class, row, seat)`; the numeric
components are Python ints. -/
abbrev MapKey := List Char × Int × Int

/-- Row-major scan order of app.py lines 138-139: rows `1..maxRow`, and
within each row columns `1..maxCol`. -/
def rowMajorPositions (mr mc : Nat) : List Coord :=
  (List.range mr).flatMap fun r => (List.range mc).map fun c => (r + 1, c + 1)

/-- The per-position body of the scan loop (app.py lines 140-157): the
key inserted at a position, or `none` when the position is skipped
because a layer value is empty or an integer conversion fails. -/
def keyAt (wsClass wsRow wsSeat : Sheet) (p : Coord) : Option MapKey :=
  match wsClass.cellVal p.1 p.2, wsRow.cellVal p.1 p.2, wsSeat.cellVal p.1 p.2 with
  | some cv, some rv, some sv =>
    match pyToInt rv, pyToInt sv with
    | some ri, some si => some (normalize_class (pyStrOf cv), ri, si)
    | _, _ => none
  | _, _, _ => none

/-- One dictionary assignment `d[f p] = p` (skipped when `f p` is `none`),
on dictionaries modelled as lookup functions. -/
def dictInsertStep {κ ν : Type} [DecidableEq κ] (f : ν → Option κ) (d : κ → Option ν)
    (p : ν) : κ → Option ν :=
  match f p with
  | some k => fun k' => if k' = k then some p else d k'
  | none => d

/-- The dictionary `coord_map` built by the scan loop of app.py lines
134-157, as a lookup function: each eligible position inserts its key,
later insertions overwriting earlier ones. -/
def buildCoordMap (wsClass wsRow wsSeat : Sheet) : MapKey → Option Coord :=
  (rowMajorPositions wsClass.maxRow wsClass.maxCol).foldl
    (dictInsertStep (keyAt wsClass wsRow wsSeat)) (fun _ => none)

/-- The lookup key of a parsed request (app.py line 164). -/
def reqKey (req : SeatReq) : MapKey :=
  (normalize_class req.1, (req.2.1 : Int), (req.2.2 : Int))

/-- State of the reconcile loop: matched entries (request and resolved
coordinate), unmatched requests, and the seat sheet's fill state. -/
abbrev RecState := List (SeatReq × Coord) × List SeatReq × (Coord → FillVal)

/-- One iteration of the reconcile loop of app.py lines 163-179: look the
request's key up in the map; on a hit paint the cell blue and append to
`matched`, on a miss append to `unmatched`. -/
def reconcileStep (idx : MapKey → Option Coord) (st : RecState) (req : SeatReq) : RecState :=
  match idx (reqKey req) with
  | some p => (st.1 ++ [(req, p)], st.2.1, fun q => if q = p then BLUE_FILL else st.2.2 q)
  | none => (st.1, st.2.1 ++ [req], st.2.2)

/-- The reconcile loop of app.py lines 160-179 over all parsed requests,
starting from empty report lists and the given initial fill state. -/
def reconcile (seats : List SeatReq) (idx : MapKey → Option Coord) (fill0 : Coord → FillVal) :
    RecState :=
  seats.foldl (reconcileStep idx) ([], [], fill0)

/-- The three required sheet names of app.py line 120. -/
def requiredSheets : List (List Char) :=
  ["25－26ブロックマップ_座席番号".toList, "25－26ブロックマップ_列".toList,
    "25－26ブロックマップ_クラス".toList]

/-- A fatal run error: unparseable input (app.py lines 111-113) or
missing required sheets (app.py lines 121-124). -/
inductive RunError where
  | inputEmpty
  | structural (missing : List (List Char))
deriving DecidableEq

/-- The run control flow of app.py lines 107-179: parse, halt with an
error on an empty parse; check the three required sheets, halt with a
structural error naming the missing ones; otherwise build the coordinate
map and reconcile. An `Except.error` result models `st.stop()`: the run
halts with that message before any output is produced and with the
uploaded workbook unmodified (no fill state is ever created on the
error paths). -/
def runTool (text : List Char) (wb : Workbook) : Except RunError RecState :=
  let seats := parse_seat_text text
  if seats = [] then .error .inputEmpty
  else
    let missing := requiredSheets.filter fun n => !(sheetnames wb).contains n
    if missing = [] then
      match getSheet wb (requiredSheets.get! 0), getSheet wb (requiredSheets.get! 1),
          getSheet wb (requiredSheets.get! 2) with
      | some wsSeat, some wsRow, some wsClass =>
        .ok (reconcile seats (buildCoordMap wsClass wsRow wsSeat)
          (fun p => wsSeat.cellFill p.1 p.2))
      | _, _, _ => .error (.structural [])
    else .error (.structural missing)

/-! Concrete fixtures used by witness statements. -/

/-- Two distinct sample requests. -/
def sampleSeats : List SeatReq := [(['A'], 1, 2), (['B'], 1, 3)]

/-- An index with no entries. -/
def emptyIndex : MapKey → Option Coord := fun _ => none

/-- An all-default initial fill state. -/
def defaultFill0 : Coord → FillVal := fun _ => FillVal.defaultFill

/-! Theorems settling the claims, with their supporting lemmas. -/

/-- C1: parsing `"Class SS End-1 2列8、9"` yields exactly the two requests
`("Class SS End-1", 2, 8)` and `("Class SS End-1", 2, 9)`: the three-token
class name is captured whole, the row is the digits before `列`, and the
seat-list region is split on `、` into one request per decimal token
(stated up to permutation because Python's set iteration order is
unspecified). -/
theorem parse_example2_two_requests :
    List.Perm (parse_seat_text ("Class SS End-1 2列8、9".toList))
      [("Class SS End-1".toList, 2, 8), ("Class SS End-1".toList, 2, 9)] := by
  decide

/-- C6: the collection returned by the parser never contains two equal
`(class_name, row, seat)` triples, and the duplicated input of Example 4
yields exactly one request. -/
theorem parse_nodup_and_dedups :
    (∀ s : List Char, (parse_seat_text s).Nodup) ∧
      parse_seat_text ("Class S South 1列33\nClass S South 1列33".toList) =
        [("Class S South".toList, 1, 33)] := by
  constructor
  · intro s
    unfold parse_seat_text
    exact List.nodup_dedup _
  · decide

/-- C9: parsing the empty string returns the empty collection without
failing, and whenever the parser produces zero requests the run halts
with the input-empty error before the workbook is consulted (the error
value is produced independently of `wb`). -/
theorem parse_empty_and_input_halt :
    parse_seat_text [] = [] ∧
      ∀ (text : List Char) (wb : Workbook), parse_seat_text text = [] →
        runTool text wb = .error .inputEmpty := by
  refine ⟨by decide, ?_⟩
  intro text wb h
  unfold runTool
  simp [h]

/-- Witness for C9's theorem at the concrete unparseable input `"x"`. -/
theorem parse_empty_and_input_halt_witness :
    parse_seat_text ("x".toList) = [] ∧
      runTool ("x".toList) (Workbook.mk []) = .error .inputEmpty :=
  ⟨by decide, parse_empty_and_input_halt.2 _ _ (by decide)⟩

/-- C4: when the parse succeeds but any required sheet is absent, the run
halts with a structural error naming exactly the missing sheets; the
`Except.error` result carries no coordinate map, no reconcile output and
no fill state, so nothing is built or mutated. -/
theorem missing_sheets_structural_halt (text : List Char) (wb : Workbook)
    (hseats : parse_seat_text text ≠ [])
    (hmiss : requiredSheets.filter (fun n => !(sheetnames wb).contains n) ≠ []) :
    runTool text wb =
      .error (.structural (requiredSheets.filter fun n => !(sheetnames wb).contains n)) := by
  unfold runTool
  simp only []
  rw [if_neg hseats, if_neg hmiss]

/-- Witness for C4's theorem: an empty workbook is missing all three
required sheets. -/
theorem missing_sheets_structural_halt_witness :
    parse_seat_text ("Class A 1列2".toList) ≠ [] ∧
      runTool ("Class A 1列2".toList) (Workbook.mk []) = .error (.structural requiredSheets) := by
  refine ⟨by decide, ?_⟩
  have h := missing_sheets_structural_halt ("Class A 1列2".toList) (Workbook.mk [])
    (by decide) (by decide)
  have e : requiredSheets.filter
      (fun n => !(sheetnames (Workbook.mk [])).contains n) = requiredSheets := by decide
  rw [e] at h
  exact h

/-- Each reconcile iteration appends exactly one entry to one of the two
report lists. -/
theorem reconcile_foldl_length (seats : List SeatReq) (idx : MapKey → Option Coord)
    (st : RecState) :
    (seats.foldl (reconcileStep idx) st).1.length
        + (seats.foldl (reconcileStep idx) st).2.1.length
      = st.1.length + st.2.1.length + seats.length := by
  induction seats generalizing st with
  | nil => simp
  | cons r rest ih =>
    rw [List.foldl_cons, ih]
    unfold reconcileStep
    cases idx (reqKey r) <;> simp <;> omega

/-- Occurrences of a fixed request across the two report lists grow by
exactly its number of occurrences in the processed prefix. -/
theorem reconcile_foldl_count (seats : List SeatReq) (idx : MapKey → Option Coord)
    (st : RecState) (req : SeatReq) :
    ((seats.foldl (reconcileStep idx) st).1.countP fun e => decide (e.1 = req))
        + ((seats.foldl (reconcileStep idx) st).2.1.countP fun r => decide (r = req))
      = (st.1.countP fun e => decide (e.1 = req)) + (st.2.1.countP fun r => decide (r = req))
        + seats.countP fun r => decide (r = req) := by
  induction seats generalizing st with
  | nil => simp
  | cons r rest ih =>
    rw [List.foldl_cons, ih]
    unfold reconcileStep
    cases idx (reqKey r) with
    | none =>
      simp only [List.countP_append, List.countP_cons, List.countP_nil]
      by_cases h : r = req <;> simp [h] <;> omega
    | some p =>
      simp only [List.countP_append, List.countP_cons, List.countP_nil]
      by_cases h : r = req <;> simp [h] <;> omega

/-- In a duplicate-free list a member is counted exactly once. -/
theorem countP_eq_one_of_nodup_mem {α : Type} [DecidableEq α] {l : List α} {a : α}
    (h : l.Nodup) (ha : a ∈ l) : (l.countP fun x => decide (x = a)) = 1 := by
  induction l with
  | nil => cases ha
  | cons x t ih =>
    rw [List.nodup_cons] at h
    rw [List.countP_cons]
    rcases List.mem_cons.mp ha with rfl | hat
    · have hz : (t.countP fun x => decide (x = a)) = 0 := by
        rw [List.countP_eq_zero]
        intro b hb
        simp only [decide_eq_true_eq]
        rintro rfl
        exact h.1 hb
      simp [hz]
    · have hne : ¬x = a := by rintro rfl; exact h.1 hat
      simp [ih h.2 hat, hne]

/-- C3: for a set of distinct requests, the reconcile loop partitions them
exactly: matched plus unmatched account for every request, and each
distinct request lands in exactly one of the two lists exactly once. -/
theorem reconcile_partitions (seats : List SeatReq) (idx : MapKey → Option Coord)
    (fill0 : Coord → FillVal) (hnd : seats.Nodup) :
    ((reconcile seats idx fill0).1.length + (reconcile seats idx fill0).2.1.length
        = seats.length)
    ∧ ∀ req ∈ seats,
        ((reconcile seats idx fill0).1.countP fun e => decide (e.1 = req))
          + ((reconcile seats idx fill0).2.1.countP fun r => decide (r = req)) = 1 := by
  constructor
  · have h := reconcile_foldl_length seats idx ([], [], fill0)
    simpa [reconcile] using h
  · intro req hreq
    have h := reconcile_foldl_count seats idx ([], [], fill0) req
    have hc := countP_eq_one_of_nodup_mem hnd hreq
    simp only [List.countP_nil] at h
    simp only [reconcile]
    omega

/-- Witness for C3's theorem at a concrete two-request run. -/
theorem reconcile_partitions_witness :
    sampleSeats.Nodup ∧
      (((reconcile sampleSeats emptyIndex defaultFill0).1.length
            + (reconcile sampleSeats emptyIndex defaultFill0).2.1.length = sampleSeats.length)
        ∧ ∀ req ∈ sampleSeats,
            ((reconcile sampleSeats emptyIndex defaultFill0).1.countP
                fun e => decide (e.1 = req))
              + ((reconcile sampleSeats emptyIndex defaultFill0).2.1.countP
                  fun r => decide (r = req)) = 1) :=
  ⟨by decide, reconcile_partitions _ _ _ (by decide)⟩

/-- Matched entries are never removed by later reconcile iterations. -/
theorem reconcile_matched_mono (seats : List SeatReq) (idx : MapKey → Option Coord)
    (st : RecState) : ∀ e ∈ st.1, e ∈ (seats.foldl (reconcileStep idx) st).1 := by
  induction seats generalizing st with
  | nil => intro e he; exact he
  | cons r rest ih =>
    intro e he
    rw [List.foldl_cons]
    apply ih
    unfold reconcileStep
    cases idx (reqKey r)
    · exact he
    · exact List.mem_append_left _ he

/-- Unmatched entries are never removed by later reconcile iterations. -/
theorem reconcile_unmatched_mono (seats : List SeatReq) (idx : MapKey → Option Coord)
    (st : RecState) : ∀ e ∈ st.2.1, e ∈ (seats.foldl (reconcileStep idx) st).2.1 := by
  induction seats generalizing st with
  | nil => intro e he; exact he
  | cons r rest ih =>
    intro e he
    rw [List.foldl_cons]
    apply ih
    unfold reconcileStep
    cases idx (reqKey r)
    · exact List.mem_append_left _ he
    · exact he

/-- A request whose key misses the index ends up in the unmatched list. -/
theorem reconcile_miss_mem (seats : List SeatReq) (idx : MapKey → Option Coord)
    (req : SeatReq) (hmiss : idx (reqKey req) = none) :
    ∀ st : RecState, req ∈ seats → req ∈ (seats.foldl (reconcileStep idx) st).2.1 := by
  induction seats with
  | nil => intro st h; cases h
  | cons r rest ih =>
    intro st hreq
    rw [List.foldl_cons]
    rcases List.mem_cons.mp hreq with rfl | hrt
    · apply reconcile_unmatched_mono
      unfold reconcileStep
      rw [hmiss]
      exact List.mem_append_right _ (List.mem_singleton.mpr rfl)
    · exact ih _ hrt

/-- A coordinate that no matched entry resolves to keeps the fill it had
in the initial state. -/
theorem reconcile_frame (seats : List SeatReq) (idx : MapKey → Option Coord)
    (st : RecState) (p : Coord)
    (h : ∀ e ∈ (seats.foldl (reconcileStep idx) st).1, e.2 ≠ p) :
    (seats.foldl (reconcileStep idx) st).2.2 p = st.2.2 p := by
  induction seats generalizing st with
  | nil => rfl
  | cons r rest ih =>
    rw [List.foldl_cons] at h ⊢
    rw [ih _ h]
    unfold reconcileStep
    cases hidx : idx (reqKey r) with
    | none => rfl
    | some q =>
      have hq : (r, q) ∈ (rest.foldl (reconcileStep idx) (reconcileStep idx st r)).1 := by
        apply reconcile_matched_mono
        unfold reconcileStep
        rw [hidx]
        exact List.mem_append_right _ (List.mem_singleton.mpr rfl)
      have hne : q ≠ p := h _ hq
      have hne' : p ≠ q := fun hpq => hne hpq.symm
      simp [hne']

/-- C8: a request whose normalized key is absent from the coordinate map
is appended to the unmatched list and causes no side effect: every
coordinate not resolved by some matched request keeps its original fill. -/
theorem reconcile_miss_no_side_effect (seats : List SeatReq) (idx : MapKey → Option Coord)
    (fill0 : Coord → FillVal) (req : SeatReq) (hreq : req ∈ seats)
    (hmiss : idx (reqKey req) = none) :
    req ∈ (reconcile seats idx fill0).2.1
    ∧ ∀ p : Coord, (∀ e ∈ (reconcile seats idx fill0).1, e.2 ≠ p) →
        (reconcile seats idx fill0).2.2 p = fill0 p := by
  constructor
  · exact reconcile_miss_mem seats idx req hmiss ([], [], fill0) hreq
  · intro p hp
    exact reconcile_frame seats idx ([], [], fill0) p hp

/-- Witness for C8's theorem: with an empty index, the sample request is
unmatched and all fills are untouched. -/
theorem reconcile_miss_no_side_effect_witness :
    ((['A'], 1, 2) ∈ sampleSeats ∧ emptyIndex (reqKey (['A'], 1, 2)) = none) ∧
      ((['A'], 1, 2) ∈ (reconcile sampleSeats emptyIndex defaultFill0).2.1
        ∧ ∀ p : Coord,
            (∀ e ∈ (reconcile sampleSeats emptyIndex defaultFill0).1, e.2 ≠ p) →
              (reconcile sampleSeats emptyIndex defaultFill0).2.2 p = defaultFill0 p) :=
  ⟨⟨by decide, rfl⟩, reconcile_miss_no_side_effect _ _ _ _ (by decide) rfl⟩

/-- Lookup after folding dictionary insertions: the value at key `k` is
the payload of the last list element that maps to `k`, or the initial
dictionary's entry when no element does. -/
theorem foldl_update_lookup {κ ν : Type} [DecidableEq κ] (f : ν → Option κ) (k : κ) :
    ∀ (l : List ν) (d : κ → Option ν),
      (l.foldl (dictInsertStep f) d) k
      = ((l.filter fun p => f p = some k).getLast?).or (d k) := by
  intro l
  induction l with
  | nil => intro d; simp
  | cons p rest ih =>
    intro d
    rw [List.foldl_cons, ih]
    by_cases hpk : f p = some k
    · have hfil : ((p :: rest).filter fun q => f q = some k)
          = p :: (rest.filter fun q => f q = some k) := by
        simp [List.filter_cons, hpk]
      have hstep : dictInsertStep f d p k = some p := by
        unfold dictInsertStep
        rw [hpk]
        simp
      rw [hfil, hstep]
      cases hlast : (rest.filter fun q => f q = some k).getLast? with
      | none =>
        have : (rest.filter fun q => f q = some k) = [] :=
          List.getLast?_eq_none_iff.mp hlast
        simp [this, Option.or]
      | some x =>
        have hne : (rest.filter fun q => f q = some k) ≠ [] := by
          intro e; rw [e] at hlast; cases hlast
        obtain ⟨y, t, hyt⟩ := List.exists_cons_of_ne_nil hne
        rw [hyt] at hlast ⊢
        rw [List.getLast?_cons_cons, hlast]
        simp [Option.or]
    · have hfil : ((p :: rest).filter fun q => f q = some k)
          = rest.filter fun q => f q = some k := by
        simp [List.filter_cons, hpk]
      have hstep : dictInsertStep f d p k = d k := by
        unfold dictInsertStep
        cases hf : f p with
        | none => rfl
        | some k' =>
          have : k ≠ k' := by rintro rfl; exact hpk hf
          simp [this]
      rw [hfil, hstep]

/-- C5: the coordinate map scans rows 1..maxRow and columns 1..maxCol in
row-major order, skips exactly the positions whose key is `none` (empty
layer value or failed integer conversion), and resolves a key to the
coordinate of the last eligible cell in scan order carrying it — later
cells silently overwrite earlier ones, and no error is possible. -/
theorem buildCoordMap_last_wins (wsClass wsRow wsSeat : Sheet) (k : MapKey) :
    buildCoordMap wsClass wsRow wsSeat k
      = ((rowMajorPositions wsClass.maxRow wsClass.maxCol).filter
          fun p => keyAt wsClass wsRow wsSeat p = some k).getLast? := by
  unfold buildCoordMap
  rw [foldl_update_lookup (keyAt wsClass wsRow wsSeat) k]
  cases ((rowMajorPositions wsClass.maxRow wsClass.maxCol).filter
      fun p => keyAt wsClass wsRow wsSeat p = some k).getLast? with
  | none => simp [Option.or]
  | some x => simp [Option.or]

/-- Collapsing whitespace never turns a nonempty string empty. -/
theorem collapseWs_ne_nil : ∀ l : List Char, l ≠ [] → collapseWs l ≠ [] := by
  intro l
  induction l using collapseWs.induct with
  | case1 => intro h; exact absurd rfl h
  | case2 c hc => intro _; simp [collapseWs, hc]
  | case3 c hc => intro _; simp [collapseWs, hc]
  | case4 c d rest hc hd ih =>
    intro _
    simpa [collapseWs, hc, hd] using ih (List.cons_ne_nil d rest)
  | case5 c d rest hc hd ih => intro _; simp [collapseWs, hc, hd]
  | case6 c d rest hc ih => intro _; simp [collapseWs, hc]

/-- Collapsing whitespace keeps a non-whitespace first character. -/
theorem collapseWs_head_of_not_space (c : Char) (l : List Char)
    (hc : pyIsSpace c = false) : (collapseWs (c :: l)).head? = some c := by
  cases l with
  | nil => simp [collapseWs, hc]
  | cons d t => simp [collapseWs, hc]

/-- Collapsing whitespace keeps a non-whitespace last character. -/
theorem collapseWs_getLast_of_not_space : ∀ (l : List Char) (c : Char),
    l.getLast? = some c → pyIsSpace c = false → (collapseWs l).getLast? = some c := by
  intro l
  induction l using collapseWs.induct with
  | case1 => intro c h _; cases h
  | case2 e he =>
    intro c h hc
    rw [List.getLast?_singleton] at h
    injection h with h
    rw [← h, he] at hc
    cases hc
  | case3 e he =>
    intro c h hc
    rw [List.getLast?_singleton] at h
    injection h with h
    subst h
    simp [collapseWs, he]
  | case4 e d rest he hd ih =>
    intro c h hc
    rw [List.getLast?_cons_cons] at h
    simpa [collapseWs, he, hd] using ih c h hc
  | case5 e d rest he hd ih =>
    intro c h hc
    rw [List.getLast?_cons_cons] at h
    have hrec := ih c h hc
    have hne := collapseWs_ne_nil (d :: rest) (List.cons_ne_nil d rest)
    obtain ⟨y, u, hyu⟩ := List.exists_cons_of_ne_nil hne
    simp only [collapseWs, if_pos he, if_neg hd]
    rw [hyu] at hrec ⊢
    rw [List.getLast?_cons_cons]
    exact hrec
  | case6 e d rest he ih =>
    intro c h hc
    rw [List.getLast?_cons_cons] at h
    have hrec := ih c h hc
    have hne := collapseWs_ne_nil (d :: rest) (List.cons_ne_nil d rest)
    obtain ⟨y, u, hyu⟩ := List.exists_cons_of_ne_nil hne
    simp only [collapseWs, if_neg he]
    rw [hyu] at hrec ⊢
    rw [List.getLast?_cons_cons]
    exact hrec

/-- Every whitespace character surviving a collapse is the ordinary
space. -/
theorem collapseWs_space_mem : ∀ l : List Char,
    ∀ c ∈ collapseWs l, pyIsSpace c = true → c = ' ' := by
  intro l
  induction l using collapseWs.induct with
  | case1 => intro c hc _; cases hc
  | case2 e he =>
    intro c hc _
    simp [collapseWs, he] at hc
    exact hc
  | case3 e he =>
    intro c hc hcs
    simp [collapseWs, he] at hc
    subst hc
    exact absurd hcs he
  | case4 e d rest he hd ih =>
    intro c hc hcs
    simp only [collapseWs, if_pos he, if_pos hd] at hc
    exact ih c hc hcs
  | case5 e d rest he hd ih =>
    intro c hc hcs
    simp only [collapseWs, if_pos he, if_neg hd] at hc
    rcases List.mem_cons.mp hc with rfl | hc'
    · rfl
    · exact ih c hc' hcs
  | case6 e d rest he ih =>
    intro c hc hcs
    simp only [collapseWs, if_neg he] at hc
    rcases List.mem_cons.mp hc with rfl | hc'
    · exact absurd hcs he
    · exact ih c hc' hcs

/-- No two adjacent whitespace characters survive a collapse. -/
theorem collapseWs_chain' : ∀ l : List Char,
    (collapseWs l).Chain' (fun a b => ¬(pyIsSpace a = true ∧ pyIsSpace b = true)) := by
  intro l
  induction l using collapseWs.induct with
  | case1 => simp [collapseWs]
  | case2 e he => simp [collapseWs, he]
  | case3 e he => simp [collapseWs, he]
  | case4 e d rest he hd ih => simpa [collapseWs, he, hd] using ih
  | case5 e d rest he hd ih =>
    simp only [collapseWs, if_pos he, if_neg hd]
    rw [List.chain'_cons']
    refine ⟨?_, ih⟩
    intro y hy
    rw [collapseWs_head_of_not_space d rest (Bool.not_eq_true _ ▸ hd)] at hy
    cases hy
    intro hand
    exact hd hand.2
  | case6 e d rest he ih =>
    simp only [collapseWs, if_neg he]
    rw [List.chain'_cons']
    refine ⟨?_, ih⟩
    intro y _ hand
    exact he hand.1

/-- A string whose whitespace is already canonical (all spaces are `' '`,
never two adjacent) is a fixed point of the collapse. -/
theorem collapseWs_eq_self : ∀ l : List Char,
    (∀ c ∈ l, pyIsSpace c = true → c = ' ') →
    l.Chain' (fun a b => ¬(pyIsSpace a = true ∧ pyIsSpace b = true)) →
    collapseWs l = l := by
  intro l
  induction l using collapseWs.induct with
  | case1 => intro _ _; rfl
  | case2 e he =>
    intro hsp _
    have : e = ' ' := hsp e (List.mem_singleton.mpr rfl) he
    simp [collapseWs, he, this]
  | case3 e he => intro _ _; simp [collapseWs, he]
  | case4 e d rest he hd ih =>
    intro _ hch
    rw [List.chain'_cons] at hch
    exact absurd ⟨he, hd⟩ hch.1
  | case5 e d rest he hd ih =>
    intro hsp hch
    have he' : e = ' ' := hsp e (List.mem_cons_self e _) he
    rw [List.chain'_cons] at hch
    simp only [collapseWs, if_pos he, if_neg hd]
    rw [ih (fun c hc => hsp c (List.mem_cons_of_mem e hc)) hch.2, he']
  | case6 e d rest he ih =>
    intro hsp hch
    rw [List.chain'_cons] at hch
    simp only [collapseWs, if_neg he]
    rw [ih (fun c hc => hsp c (List.mem_cons_of_mem e hc)) hch.2]

/-- A string with non-whitespace first and last characters is a fixed
point of stripping. -/
theorem pyStrip_eq_self (l : List Char)
    (h1 : ∀ c, l.head? = some c → pyIsSpace c = false)
    (h2 : ∀ c, l.getLast? = some c → pyIsSpace c = false) :
    pyStrip l = l := by
  cases l with
  | nil => rfl
  | cons a t =>
    have ha : pyIsSpace a = false := h1 a rfl
    unfold pyStrip
    rw [List.dropWhile_cons_of_neg (by simp [ha])]
    cases hg : (a :: t).getLast? with
    | none =>
      have := List.getLast?_eq_none_iff.mp hg
      cases this
    | some b =>
      have hb : pyIsSpace b = false := h2 b hg
      have hrev : (a :: t).reverse.head? = some b := by
        rw [List.head?_reverse]; exact hg
      obtain ⟨y, u, hyu⟩ := List.exists_cons_of_ne_nil
        (by simp : (a :: t).reverse ≠ ([] : List Char))
      have hy : y = b := by rw [hyu] at hrev; injection hrev
      have hdw : (a :: t).reverse.dropWhile pyIsSpace = (a :: t).reverse := by
        rw [hyu]
        exact List.dropWhile_cons_of_neg (by simp [hy, hb])
      rw [hdw, List.reverse_reverse]

/-- The last character of a stripped string is not whitespace. -/
theorem pyStrip_getLast_not_space (l : List Char) (c : Char)
    (h : (pyStrip l).getLast? = some c) : pyIsSpace c = false := by
  unfold pyStrip at h
  rw [List.getLast?_reverse] at h
  have := List.head?_dropWhile_not pyIsSpace (l.dropWhile pyIsSpace).reverse
  rw [h] at this
  exact this

/-- The first character of a stripped string is not whitespace. -/
theorem pyStrip_head_not_space (l : List Char) (c : Char)
    (h : (pyStrip l).head? = some c) : pyIsSpace c = false := by
  unfold pyStrip at h
  rw [List.head?_reverse] at h
  have hzne : (l.dropWhile pyIsSpace).reverse.dropWhile pyIsSpace ≠ [] := by
    intro e; rw [e] at h; cases h
  have hsuf : (l.dropWhile pyIsSpace).reverse.dropWhile pyIsSpace
      <:+ (l.dropWhile pyIsSpace).reverse := List.dropWhile_suffix pyIsSpace
  obtain ⟨u, hu⟩ := hsuf
  have hgl : (l.dropWhile pyIsSpace).reverse.getLast?
      = ((l.dropWhile pyIsSpace).reverse.dropWhile pyIsSpace).getLast? := by
    conv_lhs => rw [← hu]
    exact List.getLast?_append_of_ne_nil u hzne
  rw [List.getLast?_reverse] at hgl
  have := List.head?_dropWhile_not pyIsSpace l
  rw [hgl, h] at this
  exact this

/-- Stripping a normalized string changes nothing. -/
theorem normalize_class_strip_fixed (x : List Char) :
    pyStrip (normalize_class x) = normalize_class x := by
  unfold normalize_class
  cases hs : pyStrip x with
  | nil => rfl
  | cons a t =>
    apply pyStrip_eq_self
    · intro c hc
      have ha : pyIsSpace a = false := pyStrip_head_not_space x a (by rw [hs]; rfl)
      rw [collapseWs_head_of_not_space a t ha] at hc
      injection hc with hc
      rw [← hc]
      exact ha
    · intro c hc
      cases hgl : (pyStrip x).getLast? with
      | none =>
        rw [List.getLast?_eq_none_iff.mp hgl] at hs
        cases hs
      | some b =>
        have hbns := pyStrip_getLast_not_space x b hgl
        have hcol := collapseWs_getLast_of_not_space (pyStrip x) b hgl hbns
        rw [hs] at hcol
        rw [hcol] at hc
        injection hc with hc
        rw [← hc]
        exact hbns

/-- C7: `normalize_class` is a pure total function, idempotent, collapsing
every whitespace run to one ordinary space with no leading or trailing
whitespace left, and it identifies `"Class  S   South"` with
`"Class S South"`. -/
theorem normalize_class_idempotent :
    (∀ x : List Char, normalize_class (normalize_class x) = normalize_class x)
    ∧ (∀ x : List Char,
        (∀ c ∈ normalize_class x, pyIsSpace c = true → c = ' ')
        ∧ (normalize_class x).Chain' (fun a b => ¬(pyIsSpace a = true ∧ pyIsSpace b = true))
        ∧ pyStrip (normalize_class x) = normalize_class x)
    ∧ normalize_class ("Class  S   South".toList) = normalize_class ("Class S South".toList) := by
  refine ⟨?_, fun x => ⟨collapseWs_space_mem _, collapseWs_chain' _,
    normalize_class_strip_fixed x⟩, by decide⟩
  intro x
  calc normalize_class (normalize_class x)
      = collapseWs (pyStrip (normalize_class x)) := rfl
    _ = collapseWs (normalize_class x) := by rw [normalize_class_strip_fixed]
    _ = normalize_class x :=
        collapseWs_eq_self _ (collapseWs_space_mem _) (collapseWs_chain' _)

/-- Collapse of a greedy `p+` layer whose continuation rejects every
input starting with a `p`-character: only the maximal-run alternative
survives, so the layer is deterministic. -/
theorem plusAlts_bind_averse {β γ : Type} (p : Char → Bool) (k : List Char → List β)
    (hav : ∀ c t, p c = true → k (c :: t) = []) :
    ∀ (s : List Char) (g : List Char → β → γ),
      ((plusAlts p s).flatMap fun pr => (k pr.2).map (g pr.1)) =
        if s.takeWhile p = [] then []
        else (k (s.dropWhile p)).map (g (s.takeWhile p)) := by
  intro s
  induction s with
  | nil => intro g; simp [plusAlts]
  | cons c s' ih =>
    intro g
    by_cases hp : p c = true
    · simp only [plusAlts, if_pos hp]
      rw [List.flatMap_append, List.flatMap_map, List.flatMap_cons, List.flatMap_nil,
        List.append_nil]
      have ihg := ih fun x => g (c :: x)
      rw [List.takeWhile_cons_of_pos hp, List.dropWhile_cons_of_pos hp]
      rw [show (fun pr : List Char × List Char =>
            (k ((c :: pr.1, pr.2) : List Char × List Char).2).map
              (g ((c :: pr.1, pr.2) : List Char × List Char).1))
          = fun pr : List Char × List Char => (k pr.2).map ((fun x => g (c :: x)) pr.1)
        from rfl]
      rw [ihg]
      by_cases hsw : s'.takeWhile p = []
      · rw [if_pos hsw]
        have hdw : s'.dropWhile p = s' := by
          cases s' with
          | nil => rfl
          | cons d t =>
            have hd : ¬p d = true := by
              intro hpd
              rw [List.takeWhile_cons_of_pos hpd] at hsw
              cases hsw
            exact List.dropWhile_cons_of_neg hd
        rw [hsw, hdw]
        simp
      · rw [if_neg hsw]
        rw [if_neg (by simp : ¬(c :: s'.takeWhile p = ([] : List Char)))]
        obtain ⟨d, t, hdt⟩ : ∃ d t, s' = d :: t ∧ p d = true := by
          cases s' with
          | nil => exact absurd rfl hsw
          | cons d t =>
            by_cases hpd : p d = true
            · exact ⟨d, t, rfl, hpd⟩
            · rw [List.takeWhile_cons_of_neg hpd] at hsw
              exact absurd rfl hsw
        obtain ⟨hdt, hpd⟩ := hdt
        rw [hdt, hav d t hpd]
        simp
    · simp [plusAlts, hp, List.takeWhile_cons_of_neg hp]

/-- Inputs beginning with whitespace make the second-qualifier layer
fail. -/
theorem lvT2_nil_of_space (c : Char) (t : List Char) (h : pyIsSpace c = true) :
    lvT2 (c :: t) = [] := by
  simp [lvT2, layerPlus, plusAlts, nonSpace, h]

/-- Inputs beginning with a non-whitespace character make the
whitespace layer before the second qualifier fail. -/
theorem lvW2_nil_of_nonspace (c : Char) (t : List Char) (h : pyIsSpace c = false) :
    lvW2 (c :: t) = [] := by
  simp [lvW2, layerPlus, plusAlts, h]

/-- Inputs beginning with a non-whitespace character make the row tail
fail (its first element is `\s+`). -/
theorem lv4_nil_of_nonspace (c : Char) (t : List Char) (h : pyIsSpace c = false) :
    lv4 (c :: t) = [] := by
  simp [lv4, rowTailAlts, plusAlts, h]

/-- Inputs beginning with a non-whitespace character make the optional
group (and what follows it) fail. -/
theorem lvOpt_nil_of_nonspace (c : Char) (t : List Char) (h : pyIsSpace c = false) :
    lvOpt (c :: t) = [] := by
  unfold lvOpt
  rw [lvW2_nil_of_nonspace c t h, lv4_nil_of_nonspace c t h]
  rfl

/-- Inputs beginning with whitespace make pattern 2's first-qualifier
layer fail. -/
theorem lvT1two_nil_of_space (c : Char) (t : List Char) (h : pyIsSpace c = true) :
    lvT1two (c :: t) = [] := by
  simp [lvT1two, layerPlus, plusAlts, nonSpace, h]

/-- Inputs beginning with whitespace make pattern 1's first-qualifier
layer fail. -/
theorem lvT1opt_nil_of_space (c : Char) (t : List Char) (h : pyIsSpace c = true) :
    lvT1opt (c :: t) = [] := by
  simp [lvT1opt, layerPlus, plusAlts, nonSpace, h]

/-- Deterministic collapse of pattern 2's leading-whitespace layer. -/
theorem lvW1two_eq (r : List Char) :
    lvW1two r = if r.takeWhile pyIsSpace = [] then []
      else (lvT1two (r.dropWhile pyIsSpace)).map
        (fun res => (r.takeWhile pyIsSpace ++ res.1, res.2)) :=
  plusAlts_bind_averse pyIsSpace lvT1two lvT1two_nil_of_space r
    (fun x res => (x ++ res.1, res.2))

/-- Deterministic collapse of pattern 1's leading-whitespace layer. -/
theorem lvW1opt_eq (r : List Char) :
    lvW1opt r = if r.takeWhile pyIsSpace = [] then []
      else (lvT1opt (r.dropWhile pyIsSpace)).map
        (fun res => (r.takeWhile pyIsSpace ++ res.1, res.2)) :=
  plusAlts_bind_averse pyIsSpace lvT1opt lvT1opt_nil_of_space r
    (fun x res => (x ++ res.1, res.2))

/-- Deterministic collapse of pattern 2's first-qualifier layer. -/
theorem lvT1two_eq (r : List Char) :
    lvT1two r = if r.takeWhile nonSpace = [] then []
      else (lvW2 (r.dropWhile nonSpace)).map
        (fun res => (r.takeWhile nonSpace ++ res.1, res.2)) :=
  plusAlts_bind_averse nonSpace lvW2
    (fun c t h => lvW2_nil_of_nonspace c t (by simpa [nonSpace] using h)) r
    (fun x res => (x ++ res.1, res.2))

/-- Deterministic collapse of pattern 1's first-qualifier layer. -/
theorem lvT1opt_eq (r : List Char) :
    lvT1opt r = if r.takeWhile nonSpace = [] then []
      else (lvOpt (r.dropWhile nonSpace)).map
        (fun res => (r.takeWhile nonSpace ++ res.1, res.2)) :=
  plusAlts_bind_averse nonSpace lvOpt
    (fun c t h => lvOpt_nil_of_nonspace c t (by simpa [nonSpace] using h)) r
    (fun x res => (x ++ res.1, res.2))

/-- Whenever the three-token pattern 2 matches, the combined pattern 1
finds the same match (same groups): its greedy optional group explores
exactly pattern 2's alternatives before any two-token reading. -/
theorem p2_head_imp_p1 (s : List Char) (g : Res) (h : p2Groups s = some g) :
    p1Groups s = some g := by
  unfold p2Groups pat2Alts at h
  unfold p1Groups pat1Alts
  by_cases hpre : classLit.isPrefixOf s
  · simp only [litAlts, if_pos hpre, List.flatMap_cons, List.flatMap_nil,
      List.append_nil] at h ⊢
    rw [lvW1two_eq] at h
    rw [lvW1opt_eq]
    by_cases hw1 : (s.drop classLit.length).takeWhile pyIsSpace = []
    · rw [if_pos hw1] at h
      simp at h
    · rw [if_neg hw1] at h ⊢
      rw [lvT1two_eq] at h
      rw [lvT1opt_eq]
      by_cases ht1 :
          ((s.drop classLit.length).dropWhile pyIsSpace).takeWhile nonSpace = []
      · rw [if_pos ht1] at h
        simp at h
      · rw [if_neg ht1] at h ⊢
        simp only [List.head?_map] at h ⊢
        have hne : lvW2 (((s.drop classLit.length).dropWhile pyIsSpace).dropWhile nonSpace)
            ≠ [] := by
          intro e
          rw [e] at h
          simp at h
        have hopt : (lvOpt (((s.drop classLit.length).dropWhile pyIsSpace).dropWhile
            nonSpace)).head?
            = (lvW2 (((s.drop classLit.length).dropWhile pyIsSpace).dropWhile
                nonSpace)).head? := by
          unfold lvOpt
          cases hx : lvW2 (((s.drop classLit.length).dropWhile pyIsSpace).dropWhile
              nonSpace) with
          | nil => exact absurd hx hne
          | cons a t => simp
        rw [hopt]
        exact h
  · simp [litAlts, hpre] at h

/-- C10: the three-token fallback pattern is unreachable — whenever
pattern 1 fails on a block, pattern 2 fails as well — so the parser with
the fallback branch removed is extensionally equal to the parser as
written. -/
theorem fallback_unreachable :
    (∀ b : List Char, p1Groups b = none → p2Groups b = none)
    ∧ ∀ text : List Char, parse_seat_textNoFallback text = parse_seat_text text := by
  have key : ∀ b : List Char, p1Groups b = none → p2Groups b = none := by
    intro b h1
    cases h2 : p2Groups b with
    | none => rfl
    | some g => rw [p2_head_imp_p1 b g h2] at h1; cases h1
  refine ⟨key, ?_⟩
  intro text
  have hpb : processBlockNoFallback = processBlock := by
    funext b
    unfold processBlock processBlockNoFallback
    cases h1 : p1Groups b with
    | some g => rfl
    | none => rw [key b h1]
  simp only [parse_seat_textNoFallback, parse_seat_text, hpb]

/-- C2 counterexample: on the block `"Class X 1列 2列3"` both the
two-token reading (`("Class X", 1, 2)`, via the spec's two-token form)
and the three-token reading (`("Class X 1列", 2, 3)`, via the three-token
form) are grammatical, yet the parser returns the three-token reading,
not the two-token one. -/
theorem twoToken_priority_counterexample :
    specTwoTokenFormGroups ("Class X 1列 2列3".toList)
        = some ("Class X".toList, "1".toList, "2".toList)
    ∧ p2Groups ("Class X 1列 2列3".toList)
        = some ("Class X 1列".toList, "2".toList, "3".toList)
    ∧ parse_seat_text ("Class X 1列 2列3".toList) = [("Class X 1列".toList, 2, 3)]
    ∧ parse_seat_text ("Class X 1列 2列3".toList) ≠ [("Class X".toList, 1, 2)] :=
  ⟨by decide, by decide, by decide, by decide⟩

/-- C2 amended: the parser's first pattern accepts class names of one or
two qualifier tokens and is tried before the three-token-only fallback;
being greedy, it prefers the longer reading — whenever the three-token
form matches a block, pattern 1 finds exactly that match and the block's
requests are emitted from it, so the three-token reading (not the
two-token one) wins when both are grammatical. -/
theorem pattern1_greedy_three_token_wins (b : List Char) (g : Res)
    (h : p2Groups b = some g) :
    p1Groups b = some g ∧ processBlock b = emitReqs g := by
  have h1 := p2_head_imp_p1 b g h
  refine ⟨h1, ?_⟩
  unfold processBlock
  rw [h1]

/-- Witness for the amended C2 theorem at a three-token block. -/
theorem pattern1_greedy_three_token_wins_witness :
    p2Groups ("Class A B 1列2".toList) = some ("Class A B".toList, "1".toList, "2".toList)
    ∧ (p1Groups ("Class A B 1列2".toList)
          = some ("Class A B".toList, "1".toList, "2".toList)
        ∧ processBlock ("Class A B 1列2".toList)
          = emitReqs ("Class A B".toList, "1".toList, "2".toList)) :=
  ⟨by decide, pattern1_greedy_three_token_wins _ _ (by decide)⟩

/-- Witness for C7's theorem at a concrete raggedly-spaced input. -/
theorem normalize_class_idempotent_witness :
    normalize_class (normalize_class (" a   b ".toList)) = normalize_class (" a   b ".toList)
    ∧ pyStrip (normalize_class (" a   b ".toList)) = normalize_class (" a   b ".toList) :=
  ⟨normalize_class_idempotent.1 _, (normalize_class_idempotent.2.1 _).2.2⟩

/-- Witness for C10's theorem at a block rejected by both patterns and a
concrete input text. -/
theorem fallback_unreachable_witness :
    (p1Groups ("Class".toList) = none ∧ p2Groups ("Class".toList) = none)
    ∧ parse_seat_textNoFallback ("Class A 1列2".toList)
        = parse_seat_text ("Class A 1列2".toList) :=
  ⟨⟨by decide, fallback_unreachable.1 _ (by decide)⟩, fallback_unreachable.2 _⟩
